import Mathlib

/-!
Verification of `owlbot.py` (nodejs-logging).

The script performs, in order:
1. `node.owlbot_main(staging_excludes=[...], templates_excludes=[...])`
2. `s.replace(".trampolinerc", "required_envvars[^\)]*\)", "required_envvars+=()")`
3. `s.replace(".trampolinerc", "pass_down_envvars\+\=\(",
              'pass_down_envvars+=(\n    "ENVIRONMENT"\n    "RUNTIME"')`

We embed the two substitution rules as pure functions over `List Char`,
following Python `re.sub` semantics: scan left to right, replace each
leftmost non-overlapping match, continue after the end of the match.
Pattern 1 is `required_envvars` followed by a greedy run of non-`)`
characters and then `)`; since the character class excludes `)`, a match
always ends exactly at the first `)` after the token.  Pattern 2 is the
literal string `pass_down_envvars+=(`.

The file-writing routine `s.replace` and the `owlbot_main` entry point
live in the external `synthtool` package (not part of this repository's
sources); their contracts are modelled from the spec: read the file
(missing file is a failure), substitute, write back; `owlbot_main` is an
abstract filesystem transformer that may fail.
-/

/-- Boolean prefix test on character lists (kernel-reducible). -/
def isPre : List Char → List Char → Bool
  | [], _ => true
  | _ :: _, [] => false
  | a :: as, b :: bs => (a == b) && isPre as bs

/-- The literal token of the first pattern, `required_envvars`. -/
def requiredPat : List Char := "required_envvars".data

/-- Replacement text of the first rule (source line 38). -/
def repl1 : List Char := "required_envvars+=()".data

/-- The literal string matched by the second pattern (source line 42). -/
def passPat : List Char := "pass_down_envvars+=(".data

/-- Replacement text of the second rule (source line 43). -/
def repl2 : List Char :=
  "pass_down_envvars+=(\n    \"ENVIRONMENT\"\n    \"RUNTIME\"".data

/-- The two entry lines the second rule appends after `pass_down_envvars+=(`. -/
def entries2 : List Char := "\n    \"ENVIRONMENT\"\n    \"RUNTIME\"".data

/-- `true` when the list contains no closing parenthesis `)`. -/
def noClose : List Char → Bool
  | [] => true
  | c :: cs => !(c == ')') && noClose cs

/-- Split a list at its first `)` : returns (chars before it, chars after it),
or `none` when no `)` occurs.  This is where a greedy `[^\)]*\)` match ends. -/
def findClose : List Char → Option (List Char × List Char)
  | [] => none
  | c :: cs =>
    if c == ')' then some ([], cs)
    else
      match findClose cs with
      | some pq => some (c :: pq.1, pq.2)
      | none => none

/-- Attempt to match pattern 1, `required_envvars[^\)]*\)`, at the head of
`s`; on success return the remainder of `s` after the match. -/
def match1 (s : List Char) : Option (List Char) :=
  if isPre requiredPat s then
    (findClose (s.drop requiredPat.length)).map (fun pq => pq.2)
  else none

/-- Attempt to match pattern 2, the literal `pass_down_envvars+=(`, at the
head of `s`; on success return the remainder of `s` after the match. -/
def match2 (s : List Char) : Option (List Char) :=
  if isPre passPat s then some (s.drop passPat.length) else none

/-- Fuelled `re.sub` scanner: at each position try the matcher `M`; on a
match emit `repl` and continue after the match, otherwise keep the
character and advance one position. -/
def scanF (M : List Char → Option (List Char)) (repl : List Char) :
    Nat → List Char → List Char
  | _, [] => []
  | 0, c :: cs => c :: cs
  | fuel + 1, c :: cs =>
    match M (c :: cs) with
    | some rest => repl ++ scanF M repl fuel rest
    | none => c :: scanF M repl fuel cs

/-- `re.sub`-style global replacement (fuel instantiated at the length,
which always suffices for shrinking matchers). -/
def scan (M : List Char → Option (List Char)) (repl : List Char)
    (s : List Char) : List Char :=
  scanF M repl s.length s

/-- A matcher shrinks when every successful match consumes at least one
character. -/
def Shrinks (M : List Char → Option (List Char)) : Prop :=
  ∀ s r, M s = some r → r.length < s.length

/-- First patch rule: `re.sub("required_envvars[^\)]*\)", "required_envvars+=()", s)`. -/
def sub1 (s : List Char) : List Char := scan match1 repl1 s

/-- Second patch rule:
`re.sub("pass_down_envvars\+\=\(", 'pass_down_envvars+=(\n    "ENVIRONMENT"\n    "RUNTIME"', s)`. -/
def sub2 (s : List Char) : List Char := scan match2 repl2 s

/-- Both patch rules in the source's order: rule 1 then rule 2. -/
def applyRules (s : List Char) : List Char := sub2 (sub1 s)

/-- `true` when the literal `pat` occurs somewhere in `s`. -/
def occursIn (pat : List Char) : List Char → Bool
  | [] => false
  | c :: cs => isPre pat (c :: cs) || occursIn pat cs

/-- `true` when the matcher `M` succeeds at some position of `s`. -/
def hasMatch (M : List Char → Option (List Char)) : List Char → Bool
  | [] => false
  | c :: cs => (M (c :: cs)).isSome || hasMatch M cs

-- basic facts about the pattern pieces

theorem isPre_append (l X : List Char) : isPre l (l ++ X) = true := by
  induction l with
  | nil => rfl
  | cons a as ih => simp [isPre, ih]

theorem isPre_take :
    ∀ (l s : List Char), isPre l s = true → s.take l.length = l := by
  intro l
  induction l with
  | nil => intro s _; rfl
  | cons a as ih =>
    intro s h
    cases s with
    | nil => simp [isPre] at h
    | cons b bs =>
      simp only [isPre, Bool.and_eq_true, beq_iff_eq] at h
      simp [List.take, h.1, ih bs h.2]

theorem isPre_of_take :
    ∀ (l s : List Char), s.take l.length = l → isPre l s = true := by
  intro l
  induction l with
  | nil => intro s _; rfl
  | cons a as ih =>
    intro s h
    cases s with
    | nil => simp at h
    | cons b bs =>
      simp only [List.length_cons, List.take_succ_cons, List.cons.injEq] at h
      simp [isPre, h.1, ih bs h.2]

theorem isPre_congr (l s t : List Char)
    (h : s.take l.length = t.take l.length) : isPre l s = isPre l t := by
  cases hs : isPre l s with
  | true =>
    have := isPre_take l s hs
    exact (isPre_of_take l t (by rw [← h, this])).symm
  | false =>
    cases ht : isPre l t with
    | true =>
      have := isPre_take l t ht
      rw [← isPre_of_take l s (by rw [h, this]), hs]
    | false => rfl

theorem findClose_none_of_noClose :
    ∀ s : List Char, noClose s = true → findClose s = none := by
  intro s
  induction s with
  | nil => intro _; rfl
  | cons c cs ih =>
    intro h
    simp only [noClose, Bool.and_eq_true, Bool.not_eq_true'] at h
    simp [findClose, h.1, ih h.2]

theorem noClose_of_findClose_none :
    ∀ s : List Char, findClose s = none → noClose s = true := by
  intro s
  induction s with
  | nil => intro _; rfl
  | cons c cs ih =>
    intro h
    simp only [findClose] at h
    by_cases hc : (c == ')') = true
    · simp [hc] at h
    · simp only [Bool.not_eq_true] at hc
      simp only [hc, Bool.false_eq_true, if_false] at h
      cases hfc : findClose cs with
      | some pq => rw [hfc] at h; exact absurd h (by simp)
      | none => simp [noClose, hc, ih hfc]

theorem findClose_split :
    ∀ (mid b : List Char), noClose mid = true →
      findClose (mid ++ ')' :: b) = some (mid, b) := by
  intro mid
  induction mid with
  | nil => intro b _; rfl
  | cons c cs ih =>
    intro b h
    simp only [noClose, Bool.and_eq_true, Bool.not_eq_true'] at h
    simp [findClose, h.1, ih b h.2]

theorem findClose_parts :
    ∀ (s p q : List Char), findClose s = some (p, q) →
      s = p ++ ')' :: q ∧ noClose p = true := by
  intro s
  induction s with
  | nil => intro p q h; exact absurd h (by simp [findClose])
  | cons c cs ih =>
    intro p q h
    simp only [findClose] at h
    by_cases hc : (c == ')') = true
    · simp only [hc, if_true, Option.some.injEq, Prod.mk.injEq] at h
      obtain ⟨hp, hq⟩ := h
      subst hp; subst hq
      constructor
      · simp only [List.nil_append]
        have : c = ')' := by simpa using hc
        rw [this]
      · rfl
    · simp only [Bool.not_eq_true] at hc
      simp only [hc, Bool.false_eq_true, if_false] at h
      cases hfc : findClose cs with
      | some pq =>
        rw [hfc] at h
        simp only [Option.some.injEq, Prod.mk.injEq] at h
        obtain ⟨hp, hq⟩ := h
        obtain ⟨h1, h2⟩ := ih pq.1 pq.2 (by rw [hfc])
        subst hq
        constructor
        · rw [← hp]; simp [h1]
        · rw [← hp]; simp [noClose, hc, h2]
      | none => rw [hfc] at h; exact absurd h (by simp)

theorem findClose_length :
    ∀ (s p q : List Char), findClose s = some (p, q) → q.length < s.length := by
  intro s p q h
  obtain ⟨h1, _⟩ := findClose_parts s p q h
  rw [h1]
  simp only [List.length_append, List.length_cons]
  omega

theorem match1_length : Shrinks match1 := by
  intro s r h
  simp only [match1] at h
  by_cases hp : isPre requiredPat s = true
  · simp only [hp, if_true, Option.map_eq_some'] at h
    obtain ⟨pq, hfc, hr⟩ := h
    have := findClose_length _ pq.1 pq.2 (by rw [hfc])
    have hlen : (s.drop requiredPat.length).length ≤ s.length := by
      simp [List.length_drop]
    subst hr
    have hne : 0 < requiredPat.length := by decide
    have hsl : requiredPat.length ≤ s.length := by
      have := isPre_take requiredPat s hp
      have h2 : (s.take requiredPat.length).length = requiredPat.length := by
        rw [this]
      simp only [List.length_take] at h2
      omega
    simp only [List.length_drop] at this
    omega
  · simp [hp] at h

theorem match2_length : Shrinks match2 := by
  intro s r h
  simp only [match2] at h
  by_cases hp : isPre passPat s = true
  · simp only [hp, if_true, Option.some.injEq] at h
    subst h
    have hne : 0 < passPat.length := by decide
    have hsl : passPat.length ≤ s.length := by
      have := isPre_take passPat s hp
      have h2 : (s.take passPat.length).length = passPat.length := by rw [this]
      simp only [List.length_take] at h2
      omega
    simp only [List.length_drop]
    omega
  · simp [hp] at h

-- the scanner: fuel irrelevance and unfolding lemmas

theorem scanF_congr (M : List Char → Option (List Char)) (repl : List Char)
    (hM : Shrinks M) :
    ∀ (n : Nat) (s : List Char) (f₁ f₂ : Nat), s.length ≤ n →
      s.length ≤ f₁ → s.length ≤ f₂ →
      scanF M repl f₁ s = scanF M repl f₂ s := by
  intro n
  induction n with
  | zero =>
    intro s f₁ f₂ hn _ _
    have : s = [] := List.length_eq_zero.mp (Nat.le_zero.mp hn)
    subst this
    cases f₁ <;> cases f₂ <;> rfl
  | succ n ih =>
    intro s f₁ f₂ hn h1 h2
    cases s with
    | nil => cases f₁ <;> cases f₂ <;> rfl
    | cons c cs =>
      simp only [List.length_cons] at hn h1 h2
      cases f₁ with
      | zero => omega
      | succ g₁ =>
        cases f₂ with
        | zero => omega
        | succ g₂ =>
          simp only [scanF]
          cases hm : M (c :: cs) with
          | some rest =>
            have hr : rest.length < cs.length + 1 := by
              have := hM _ _ hm
              simpa using this
            show repl ++ scanF M repl g₁ rest = repl ++ scanF M repl g₂ rest
            rw [ih rest g₁ g₂ (by omega) (by omega) (by omega)]
          | none =>
            show c :: scanF M repl g₁ cs = c :: scanF M repl g₂ cs
            rw [ih cs g₁ g₂ (by omega) (by omega) (by omega)]

theorem scan_cons (M : List Char → Option (List Char)) (repl : List Char)
    (hM : Shrinks M) (c : Char) (cs : List Char) :
    scan M repl (c :: cs) =
      match M (c :: cs) with
      | some rest => repl ++ scan M repl rest
      | none => c :: scan M repl cs := by
  show scanF M repl (c :: cs).length (c :: cs) = _
  simp only [List.length_cons, scanF]
  cases hm : M (c :: cs) with
  | some rest =>
    have hr : rest.length < cs.length + 1 := by
      have := hM _ _ hm
      simpa using this
    show repl ++ scanF M repl cs.length rest = repl ++ scan M repl rest
    rw [scanF_congr M repl hM rest.length rest cs.length rest.length
      (Nat.le_refl _) (by omega) (Nat.le_refl _)]
    rfl
  | none =>
    show c :: scanF M repl cs.length cs = c :: scan M repl cs
    rfl

theorem scan_match (M : List Char → Option (List Char)) (repl : List Char)
    (hM : Shrinks M) (c : Char) (cs rest : List Char)
    (hm : M (c :: cs) = some rest) :
    scan M repl (c :: cs) = repl ++ scan M repl rest := by
  rw [scan_cons M repl hM c cs, hm]

theorem scan_nomatch (M : List Char → Option (List Char)) (repl : List Char)
    (hM : Shrinks M) (c : Char) (cs : List Char)
    (hm : M (c :: cs) = none) :
    scan M repl (c :: cs) = c :: scan M repl cs := by
  rw [scan_cons M repl hM c cs, hm]

theorem scan_skip (M : List Char → Option (List Char)) (repl : List Char)
    (hM : Shrinks M) :
    ∀ (a t : List Char),
      (∀ i, i < a.length → M ((a ++ t).drop i) = none) →
      scan M repl (a ++ t) = a ++ scan M repl t := by
  intro a
  induction a with
  | nil => intro t _; rfl
  | cons c as ih =>
    intro t h
    have h0 : M (c :: (as ++ t)) = none := by
      have := h 0 (by simp)
      simpa using this
    rw [List.cons_append, scan_nomatch M repl hM c (as ++ t) h0]
    rw [ih t (fun i hi => by
      have := h (i + 1) (by simp only [List.length_cons]; omega)
      simpa using this)]
    rfl

theorem scan_id_of_no_match (M : List Char → Option (List Char))
    (repl : List Char) (hM : Shrinks M) :
    ∀ s : List Char, hasMatch M s = false → scan M repl s = s := by
  intro s
  induction s with
  | nil => intro _; rfl
  | cons c cs ih =>
    intro h
    simp only [hasMatch, Bool.or_eq_false_iff] at h
    have hm : M (c :: cs) = none := by
      cases hmc : M (c :: cs) with
      | some r => rw [hmc] at h; exact absurd h.1 (by simp)
      | none => rfl
    rw [scan_nomatch M repl hM c cs hm, ih h.2]

-- facts specific to the two rules

theorem requiredPat_len : requiredPat.length = 16 := rfl

theorem repl1_decomp : repl1 = requiredPat ++ "+=()".data := rfl

theorem repl2_decomp : repl2 = passPat ++ entries2 := rfl

theorem match1_repl1 (X : List Char) : match1 (repl1 ++ X) = some X := rfl

theorem match2_passPat (X : List Char) : match2 (passPat ++ X) = some X := rfl

theorem match1_some_elim (s r : List Char) (h : match1 s = some r) :
    isPre requiredPat s = true ∧
      ∃ p, findClose (s.drop requiredPat.length) = some (p, r) := by
  by_cases hp : isPre requiredPat s = true
  · refine ⟨hp, ?_⟩
    simp only [match1, hp, if_true, Option.map_eq_some'] at h
    obtain ⟨pq, hfc, hr⟩ := h
    exact ⟨pq.1, by rw [← hr]; rw [← hfc]⟩
  · simp [match1, hp] at h

theorem match1_none_of_not_isPre (s : List Char)
    (h : isPre requiredPat s = false) : match1 s = none := by
  simp [match1, h]

theorem match2_none_of_not_isPre (s : List Char)
    (h : isPre passPat s = false) : match2 s = none := by
  simp [match2, h]

theorem noClose_drop :
    ∀ (n : Nat) (s : List Char), noClose s = true → noClose (s.drop n) = true := by
  intro n
  induction n with
  | zero => intro s h; simpa using h
  | succ n ih =>
    intro s h
    cases s with
    | nil => rfl
    | cons c cs =>
      simp only [noClose, Bool.and_eq_true] at h
      exact ih cs h.2

theorem match1_none_of_noClose (s : List Char) (h : noClose s = true) :
    match1 s = none := by
  by_cases hp : isPre requiredPat s = true
  · simp only [match1, hp, if_true, Option.map_eq_none']
    exact findClose_none_of_noClose _ (noClose_drop _ _ h)
  · exact match1_none_of_not_isPre s (by simpa using hp)

theorem sub1_of_match (s rest : List Char) (h : match1 s = some rest) :
    sub1 s = repl1 ++ sub1 rest := by
  cases s with
  | nil => exact absurd h (by simp [match1, isPre, requiredPat])
  | cons c cs => exact scan_match match1 repl1 match1_length c cs rest h

theorem sub2_of_match (s rest : List Char) (h : match2 s = some rest) :
    sub2 s = repl2 ++ sub2 rest := by
  cases s with
  | nil => exact absurd h (by simp [match2, isPre, passPat])
  | cons c cs => exact scan_match match2 repl2 match2_length c cs rest h

theorem sub1_id_of_noClose :
    ∀ s : List Char, noClose s = true → sub1 s = s := by
  intro s
  induction s with
  | nil => intro _; rfl
  | cons c cs ih =>
    intro h
    have hcs : noClose cs = true := by
      simp only [noClose, Bool.and_eq_true] at h
      exact h.2
    rw [sub1, scan_nomatch match1 repl1 match1_length c cs
      (match1_none_of_noClose _ h)]
    rw [← sub1, ih hcs]

theorem sub2_id_of_not_occurs :
    ∀ s : List Char, occursIn passPat s = false → sub2 s = s := by
  intro s
  induction s with
  | nil => intro _; rfl
  | cons c cs ih =>
    intro h
    simp only [occursIn, Bool.or_eq_false_iff] at h
    rw [sub2, scan_nomatch match2 repl2 match2_length c cs
      (match2_none_of_not_isPre _ h.1)]
    rw [← sub2, ih h.2]

theorem hasMatch2_eq_occurs :
    ∀ s : List Char, hasMatch match2 s = occursIn passPat s := by
  intro s
  induction s with
  | nil => rfl
  | cons c cs ih =>
    simp only [hasMatch, occursIn, ih]
    by_cases hp : isPre passPat (c :: cs) = true
    · simp [match2, hp]
    · simp only [Bool.not_eq_true] at hp
      simp [match2, hp]

theorem sub1_take :
    ∀ (n : Nat) (s : List Char) (k : Nat), s.length ≤ n →
      k ≤ requiredPat.length → (sub1 s).take k = s.take k := by
  intro n
  induction n with
  | zero =>
    intro s k hn _
    have : s = [] := List.length_eq_zero.mp (Nat.le_zero.mp hn)
    subst this; rfl
  | succ n ih =>
    intro s k hn hk
    cases s with
    | nil => rfl
    | cons c cs =>
      simp only [List.length_cons] at hn
      cases hm : match1 (c :: cs) with
      | some rest =>
        rw [sub1, scan_match match1 repl1 match1_length c cs rest hm, ← sub1]
        have hpre := (match1_some_elim _ _ hm).1
        have h1 : (repl1 ++ sub1 rest).take k = repl1.take k :=
          List.take_append_of_le_length (by rw [repl1_decomp]; simp; omega)
        have h2 : repl1.take k = requiredPat.take k := by
          rw [repl1_decomp]
          exact List.take_append_of_le_length hk
        have h3 : (c :: cs).take k = requiredPat.take k := by
          have := isPre_take requiredPat (c :: cs) hpre
          rw [← this, List.take_take]
          congr 1
          omega
        rw [h1, h2, h3]
      | none =>
        rw [sub1, scan_nomatch match1 repl1 match1_length c cs hm, ← sub1]
        cases k with
        | zero => rfl
        | succ j =>
          simp only [List.take_succ_cons]
          rw [ih cs j (by omega) (by omega)]

theorem noClose_requiredPat : noClose requiredPat = true := rfl

theorem noClose_append :
    ∀ x y : List Char, noClose (x ++ y) = (noClose x && noClose y) := by
  intro x y
  induction x with
  | nil => simp [noClose]
  | cons a as ih => simp [noClose, ih, Bool.and_assoc]

theorem match1_none_lift (c : Char) (cs : List Char)
    (h : match1 (c :: cs) = none) : match1 (c :: sub1 cs) = none := by
  by_cases hp : isPre requiredPat (c :: cs) = true
  · -- the token is present but no `)` follows: the tail has no `)` at all,
    -- hence `sub1 cs = cs` and the claim is the hypothesis itself
    simp only [match1, hp, if_true, Option.map_eq_none'] at h
    have hnc : noClose ((c :: cs).drop requiredPat.length) = true :=
      noClose_of_findClose_none _ h
    have hsplit : (c :: cs).take requiredPat.length = requiredPat :=
      isPre_take _ _ hp
    have hwhole : noClose (c :: cs) = true := by
      have := List.take_append_drop requiredPat.length (c :: cs)
      rw [hsplit] at this
      rw [← this, noClose_append, noClose_requiredPat, hnc]
      rfl
    have hcs : noClose cs = true := by
      simp only [noClose, Bool.and_eq_true] at hwhole
      exact hwhole.2
    rw [sub1_id_of_noClose cs hcs]
    exact match1_none_of_noClose _ hwhole
  · -- the token is absent: `sub1` agrees with the input on the first 16
    -- characters, so the token is still absent
    have hp2 : isPre requiredPat (c :: cs) = false := by simpa using hp
    have hfix : sub1 (c :: cs) = c :: sub1 cs :=
      scan_nomatch match1 repl1 match1_length c cs h
    have htake : (c :: sub1 cs).take requiredPat.length =
        (c :: cs).take requiredPat.length := by
      rw [← hfix]
      exact sub1_take (c :: cs).length (c :: cs) requiredPat.length
        (Nat.le_refl _) (Nat.le_refl _)
    have hagree := isPre_congr requiredPat (c :: sub1 cs) (c :: cs) htake
    rw [hp2] at hagree
    exact match1_none_of_not_isPre _ hagree

theorem sub1_idem : ∀ s : List Char, sub1 (sub1 s) = sub1 s := by
  have key : ∀ (n : Nat) (s : List Char), s.length ≤ n →
      sub1 (sub1 s) = sub1 s := by
    intro n
    induction n with
    | zero =>
      intro s hn
      have : s = [] := List.length_eq_zero.mp (Nat.le_zero.mp hn)
      subst this; rfl
    | succ n ih =>
      intro s hn
      cases s with
      | nil => rfl
      | cons c cs =>
        simp only [List.length_cons] at hn
        cases hm : match1 (c :: cs) with
        | some rest =>
          have hr : rest.length < cs.length + 1 := by
            have := match1_length _ _ hm
            simpa using this
          rw [sub1_of_match _ _ hm]
          rw [sub1_of_match (repl1 ++ sub1 rest) (sub1 rest) (match1_repl1 _)]
          rw [ih rest (by omega)]
        | none =>
          have hfix : sub1 (c :: cs) = c :: sub1 cs :=
            scan_nomatch match1 repl1 match1_length c cs hm
          have hfix2 : sub1 (c :: sub1 cs) = c :: sub1 (sub1 cs) :=
            scan_nomatch match1 repl1 match1_length c (sub1 cs)
              (match1_none_lift c cs hm)
          rw [hfix, hfix2, ih cs (by omega)]
  intro s
  exact key s.length s (Nat.le_refl _)

theorem findClose_append_noClose :
    ∀ (x t : List Char), noClose t = true →
      findClose (x ++ t) = (findClose x).map (fun pq => (pq.1, pq.2 ++ t)) := by
  intro x t ht
  induction x with
  | nil =>
    simp only [List.nil_append, findClose, Option.map_none']
    exact findClose_none_of_noClose t ht
  | cons c cs ih =>
    by_cases hc : (c == ')') = true
    · simp [findClose, hc]
    · simp only [Bool.not_eq_true] at hc
      simp only [List.cons_append, findClose, hc, Bool.false_eq_true, if_false,
        List.append_eq]
      rw [ih]
      cases findClose cs with
      | some pq => rfl
      | none => rfl

theorem sub1_frame :
    ∀ (n : Nat) (a t : List Char), a.length ≤ n → noClose t = true →
      ∃ a2, sub1 (a ++ t) = a2 ++ t := by
  intro n
  induction n with
  | zero =>
    intro a t hn ht
    have : a = [] := List.length_eq_zero.mp (Nat.le_zero.mp hn)
    subst this
    exact ⟨[], by simpa using sub1_id_of_noClose t ht⟩
  | succ n ih =>
    intro a t hn ht
    cases a with
    | nil => exact ⟨[], by simpa using sub1_id_of_noClose t ht⟩
    | cons c as =>
      simp only [List.length_cons] at hn
      cases hm : match1 ((c :: as) ++ t) with
      | none =>
        have hfix : sub1 (c :: (as ++ t)) = c :: sub1 (as ++ t) :=
          scan_nomatch match1 repl1 match1_length c (as ++ t)
            (by simpa using hm)
        obtain ⟨a2, ha2⟩ := ih as t (by omega) ht
        exact ⟨c :: a2, by simpa [hfix] using ha2⟩
      | some rest =>
        obtain ⟨hpre, p, hfc⟩ := match1_some_elim _ _ hm
        rw [List.drop_append_eq_append_drop] at hfc
        rcases Nat.lt_or_ge (c :: as).length requiredPat.length with hlt | hge
        · -- the `a` part is shorter than the token: the drop lands inside
          -- `t`, which has no `)`, so `findClose` cannot have succeeded
          rw [List.drop_eq_nil_of_le (by omega), List.nil_append] at hfc
          rw [findClose_none_of_noClose _ (noClose_drop _ t ht)] at hfc
          exact absurd hfc (by simp)
        · have hz : requiredPat.length - (c :: as).length = 0 := by omega
          rw [hz, List.drop_zero] at hfc
          rw [findClose_append_noClose _ t ht] at hfc
          rw [Option.map_eq_some'] at hfc
          obtain ⟨pq, hpq, heq⟩ := hfc
          have hqlen : pq.2.length < ((c :: as).drop requiredPat.length).length :=
            findClose_length _ pq.1 pq.2 (by rw [hpq])
          simp only [List.length_drop, List.length_cons] at hqlen
          have hrest : rest = pq.2 ++ t := by
            have := congrArg Prod.snd heq
            simp only at this
            exact this.symm
          rw [sub1_of_match _ _ hm, hrest]
          obtain ⟨a2, ha2⟩ := ih pq.2 t (by omega) ht
          exact ⟨repl1 ++ a2, by rw [ha2, List.append_assoc]⟩

theorem match1_decl (mid b : List Char) (hmid : noClose mid = true) :
    match1 (requiredPat ++ (mid ++ ')' :: b)) = some b := by
  simp only [match1, isPre_append, if_true]
  rw [List.drop_left, findClose_split mid b hmid]
  rfl

theorem sub1_skip (a t : List Char)
    (h : ∀ i, i < a.length → isPre requiredPat ((a ++ t).drop i) = false) :
    sub1 (a ++ t) = a ++ sub1 t :=
  scan_skip match1 repl1 match1_length a t
    (fun i hi => match1_none_of_not_isPre _ (h i hi))

theorem sub2_skip (a t : List Char)
    (h : ∀ i, i < a.length → isPre passPat ((a ++ t).drop i) = false) :
    sub2 (a ++ t) = a ++ sub2 t :=
  scan_skip match2 repl2 match2_length a t
    (fun i hi => match2_none_of_not_isPre _ (h i hi))

-- the script itself: configuration, filesystem model, sequential execution

/-- The keyword arguments of the `node.owlbot_main` call (source lines 20-32). -/
structure OwlbotConfig where
  staging_excludes : List String
  templates_excludes : List String

/-- The configuration literally written in the script. -/
def owlbotConfig : OwlbotConfig :=
  ⟨[".eslintignore", ".prettierignore", "src/index.ts", "README.md",
    "package.json",
    "system-test/fixtures/sample/src/index.js",
    "system-test/fixtures/sample/src/index.ts"],
   ["src/index.ts",
    ".eslintignore",
    ".prettierignore",
    "CONTRIBUTING.md",
    ".github/auto-label.yaml"]⟩

/-- A working-copy state: each path maps to a file content or is absent. -/
def FS : Type := String → Option (List Char)

/-- Write one file. -/
def fsWrite (fs : FS) (p : String) (v : List Char) : FS :=
  fun q => if q = p then some v else fs q

/-- Modelled from the spec: the `s.replace` patch routine of the external
synthtool package (absent from this repository's sources).  Per the spec it
reads the target file, replaces all matches of the pattern with the
replacement (`f` is the substitution function of the rule) and writes the
file back; a missing target file is a failure. -/
def replaceStep (path : String) (f : List Char → List Char) (fs : FS) :
    Except String FS :=
  match fs path with
  | none => .error ("missing file: " ++ path)
  | some content => .ok (fsWrite fs path (f content))

/-- Modelled from the spec: the whole script body, in source order — the
`owlbot_main` synchronization call (an opaque filesystem transformer that
may fail, passed as a parameter), then rule 1 on `.trampolinerc`, then
rule 2 on `.trampolinerc`.  Python exceptions are modelled by `Except`:
an error short-circuits the remaining steps. -/
def runScript (owlbotMain : OwlbotConfig → FS → Except String FS)
    (fs : FS) : Except String FS := do
  let fs1 ← owlbotMain owlbotConfig fs
  let fs2 ← replaceStep ".trampolinerc" (fun s => scan match1 repl1 s) fs1
  replaceStep ".trampolinerc" (fun s => scan match2 repl2 s) fs2

/-- The script with the ambient process inputs every Python script
receives: command-line arguments and the environment.  The source reads
neither, so the model consumes them without using them. -/
def runScriptFull (owlbotMain : OwlbotConfig → FS → Except String FS)
    (_argv : List String) (_env : String → Option String) (fs : FS) :
    Except String FS :=
  runScript owlbotMain fs

/-- One syntactic top-level operation of the module body. -/
inductive ScriptOp where
  | sync (cfg : OwlbotConfig)
  | patch (path : String) (patSrc : String) (replSrc : String)

/-- The module body as the ordered list of its top-level operations,
transcribed from source lines 20-44. -/
def scriptOps : List ScriptOp :=
  [ScriptOp.sync owlbotConfig,
   ScriptOp.patch ".trampolinerc" "required_envvars[^\\)]*\\)"
     "required_envvars+=()",
   ScriptOp.patch ".trampolinerc" "pass_down_envvars\\+\\=\\("
     "pass_down_envvars+=(\n    \"ENVIRONMENT\"\n    \"RUNTIME\""]

/-- `true` on the synchronization operation. -/
def isSync : ScriptOp → Bool
  | ScriptOp.sync _ => true
  | ScriptOp.patch _ _ _ => false

-- the claims

/-- C1, counterexample: the claim is false as stated.  The second rule's
replacement text itself contains the pattern `pass_down_envvars+=(`, so
after one application of the two rules that pattern still matches, and a
second application inserts the two entries again.  Concretely, on the file
content `pass_down_envvars+=(` the two rules applied twice give a
different content than applied once. -/
theorem C1_counterexample :
    applyRules (applyRules passPat) ≠ applyRules passPat := by decide

/-- C1, amended: if the pattern `pass_down_envvars+=(` no longer occurs
after the first rule has run (the spec's own proviso), then applying the
two patch rules twice in succession yields the same file content as
applying them once.  (The first pattern may still match the once-patched
content — its replacement matches the pattern — but the first rule maps
its own replacement to itself, so it never needs a proviso.) -/
theorem C1_rules_idempotent_of_no_pass_pattern :
    ∀ s : List Char, occursIn passPat (sub1 s) = false →
      applyRules (applyRules s) = applyRules s := by
  intro s h
  have h1 : applyRules s = sub1 s := sub2_id_of_not_occurs _ h
  rw [h1]
  show sub2 (sub1 (sub1 s)) = sub1 s
  rw [sub1_idem s]
  exact sub2_id_of_not_occurs _ h

/-- C1, witness: the amended theorem applied to the concrete content
`X=1\n`. -/
theorem C1_witness :
    occursIn passPat (sub1 "X=1\n".data) = false ∧
      applyRules (applyRules "X=1\n".data) = applyRules "X=1\n".data :=
  ⟨by decide, C1_rules_idempotent_of_no_pass_pattern "X=1\n".data (by decide)⟩

/-- C2: a file content containing a `required_envvars(...)` declaration —
the token `required_envvars`, then characters none of which is `)`, then
`)` — has that declaration replaced by the exact text
`required_envvars+=()`.  The hypothesis on `a` states that the declaration
shown is the leftmost start of the pattern, which is what `re.sub`'s
left-to-right scan replaces; the text before it is kept verbatim and the
text after it is processed by the same rule. -/
theorem C2_first_rule_rewrites_declaration :
    ∀ a mid b : List Char,
      (∀ i, i < a.length →
        isPre requiredPat
          ((a ++ (requiredPat ++ (mid ++ ')' :: b))).drop i) = false) →
      noClose mid = true →
      sub1 (a ++ (requiredPat ++ (mid ++ ')' :: b))) =
        a ++ (repl1 ++ sub1 b) := by
  intro a mid b ha hmid
  rw [sub1_skip a _ ha]
  rw [sub1_of_match _ b (match1_decl mid b hmid)]

/-- C2, witness: the theorem applied to the content
`# vars\nrequired_envvars(\n  "A"\n)\nend\n`. -/
theorem C2_witness :
    (∀ i, i < ("# vars\n".data).length →
      isPre requiredPat
        ((("# vars\n".data) ++
          (requiredPat ++ ("(\n  \"A\"\n".data ++ ')' :: "\nend\n".data))).drop i)
        = false) ∧
    noClose "(\n  \"A\"\n".data = true ∧
    sub1 (("# vars\n".data) ++
        (requiredPat ++ ("(\n  \"A\"\n".data ++ ')' :: "\nend\n".data))) =
      ("# vars\n".data) ++ (repl1 ++ sub1 "\nend\n".data) :=
  ⟨by decide, by decide,
   C2_first_rule_rewrites_declaration "# vars\n".data "(\n  \"A\"\n".data
     "\nend\n".data (by decide) (by decide)⟩

/-- C3: a file content containing `pass_down_envvars+=(` has each such
occurrence replaced by `pass_down_envvars+=(` followed by a newline, the
indented entry "ENVIRONMENT", a newline and the indented entry "RUNTIME"
(`entries2`), with the original continuation following immediately (it is
processed by the same rule, replacing its further occurrences likewise).
The hypothesis on `a` states that the occurrence shown is the leftmost
one. -/
theorem C3_second_rule_appends_entries :
    ∀ a b : List Char,
      (∀ i, i < a.length →
        isPre passPat ((a ++ (passPat ++ b)).drop i) = false) →
      sub2 (a ++ (passPat ++ b)) =
        a ++ (passPat ++ (entries2 ++ sub2 b)) := by
  intro a b ha
  rw [sub2_skip a _ ha]
  rw [sub2_of_match _ b (match2_passPat b)]
  rw [repl2_decomp, List.append_assoc]

/-- C3, witness: the theorem applied to the content
`if x\npass_down_envvars+=(\n  "A"\n)`. -/
theorem C3_witness :
    (∀ i, i < ("if x\n".data).length →
      isPre passPat
        ((("if x\n".data) ++ (passPat ++ "\n  \"A\"\n)".data)).drop i)
        = false) ∧
    sub2 (("if x\n".data) ++ (passPat ++ "\n  \"A\"\n)".data)) =
      ("if x\n".data) ++ (passPat ++ (entries2 ++ sub2 "\n  \"A\"\n)".data)) :=
  ⟨by decide,
   C3_second_rule_appends_entries "if x\n".data "\n  \"A\"\n)".data (by decide)⟩

/-- C4: the patch routine (modelled from the spec, `scan`) replaces every
leftmost match of the pattern with the replacement: whenever the matcher
succeeds the replacement is emitted and scanning continues on the
remainder, and when the pattern has no match anywhere in the content the
result is identical to the original content.  Stated for every matcher
that consumes at least one character per match, which both patterns of
the script do. -/
theorem C4_patch_routine_replaces_all_matches :
    ∀ (M : List Char → Option (List Char)) (repl : List Char), Shrinks M →
      ∀ s : List Char,
        (hasMatch M s = false → scan M repl s = s) ∧
        (∀ rest, M s = some rest →
          scan M repl s = repl ++ scan M repl rest) := by
  intro M repl hM s
  constructor
  · exact scan_id_of_no_match M repl hM s
  · intro rest hr
    cases s with
    | nil =>
      have := hM [] rest hr
      simp at this
    | cons c cs => exact scan_match M repl hM c cs rest hr

/-- C4, witness: the theorem applied to the second rule's matcher, on a
content with no match (unchanged) and on a content that is exactly the
pattern (replaced). -/
theorem C4_witness :
    scan match2 repl2 "no match here".data = "no match here".data ∧
      scan match2 repl2 passPat = repl2 ++ scan match2 repl2 [] :=
  ⟨(C4_patch_routine_replaces_all_matches match2 repl2 match2_length
      "no match here".data).1 (by decide),
   (C4_patch_routine_replaces_all_matches match2 repl2 match2_length
      passPat).2 [] (by decide)⟩

/-- C5: the module body contains exactly one synchronization operation,
and its configuration carries exactly the two literal path lists of the
source: `staging_excludes` and `templates_excludes`, in their source
order. -/
theorem C5_owlbot_main_called_once_with_literal_config :
    scriptOps.filter isSync =
      [ScriptOp.sync
        ⟨[".eslintignore", ".prettierignore", "src/index.ts", "README.md",
          "package.json",
          "system-test/fixtures/sample/src/index.js",
          "system-test/fixtures/sample/src/index.ts"],
         ["src/index.ts",
          ".eslintignore",
          ".prettierignore",
          "CONTRIBUTING.md",
          ".github/auto-label.yaml"]⟩] := rfl

/-- C6: the whole script is the sequential composition, in this fixed
order, of the synchronization call, the first patch rule on
`.trampolinerc` and the second patch rule on `.trampolinerc`: the module
body is exactly that three-element operation list, and the execution
model is exactly the corresponding chain of binds — no branching, no
loops, no retries on any path. -/
theorem C6_fixed_sequence_no_branching :
    scriptOps =
      [ScriptOp.sync owlbotConfig,
       ScriptOp.patch ".trampolinerc" "required_envvars[^\\)]*\\)"
         "required_envvars+=()",
       ScriptOp.patch ".trampolinerc" "pass_down_envvars\\+\\=\\("
         "pass_down_envvars+=(\n    \"ENVIRONMENT\"\n    \"RUNTIME\""] ∧
    ∀ (om : OwlbotConfig → FS → Except String FS) (fs : FS),
      runScript om fs =
        (om owlbotConfig fs).bind (fun fs1 =>
          (replaceStep ".trampolinerc" sub1 fs1).bind
            (replaceStep ".trampolinerc" sub2)) :=
  ⟨rfl, fun _ _ => rfl⟩

/-- C7: no error is handled: if the synchronization call fails, the run
aborts with that very error and neither patch is executed; if the
synchronization succeeds but the patch target `.trampolinerc` is missing,
the run aborts with the patch failure and the remaining patch is not
executed. -/
theorem C7_errors_propagate_uncaught :
    (∀ (om : OwlbotConfig → FS → Except String FS) (fs : FS) (e : String),
      om owlbotConfig fs = Except.error e →
        runScript om fs = Except.error e) ∧
    (∀ (om : OwlbotConfig → FS → Except String FS) (fs fs1 : FS),
      om owlbotConfig fs = Except.ok fs1 →
      fs1 ".trampolinerc" = none →
        runScript om fs = Except.error ("missing file: " ++ ".trampolinerc")) := by
  constructor
  · intro om fs e h
    show (om owlbotConfig fs).bind _ = Except.error e
    rw [h]
    rfl
  · intro om fs fs1 h h2
    show (om owlbotConfig fs).bind _ = Except.error _
    rw [h]
    show (replaceStep ".trampolinerc" _ fs1).bind _ = Except.error _
    unfold replaceStep
    rw [h2]
    rfl

/-- C7, witness: a synchronization that fails aborts with its error; a
successful synchronization over an empty working copy aborts at the first
patch because `.trampolinerc` is missing. -/
theorem C7_witness :
    runScript (fun _ _ => Except.error "sync failed") (fun _ => none) =
        Except.error "sync failed" ∧
      runScript (fun _ fs => Except.ok fs) (fun _ => none) =
        Except.error ("missing file: " ++ ".trampolinerc") :=
  ⟨C7_errors_propagate_uncaught.1 (fun _ _ => Except.error "sync failed")
      (fun _ => none) "sync failed" rfl,
   C7_errors_propagate_uncaught.2 (fun _ fs => Except.ok fs)
      (fun _ => none) (fun _ => none) rfl rfl⟩

/-- C8: the script's behaviour is a function of the working-copy state
alone: running it with any command-line arguments and any environment
yields the same result, because the source reads neither; and the strings
"ENVIRONMENT" and "RUNTIME" occur only as literal text inside the second
rule's replacement, appended to the target file's content. -/
theorem C8_deterministic_no_cli_no_env :
    (∀ (om : OwlbotConfig → FS → Except String FS)
       (argv1 argv2 : List String) (env1 env2 : String → Option String)
       (fs : FS),
      runScriptFull om argv1 env1 fs = runScriptFull om argv2 env2 fs) ∧
    repl2 = passPat ++ entries2 :=
  ⟨fun _ _ _ _ _ _ => rfl, rfl⟩

/-- C9: the first rule alone is idempotent on every file content: its
replacement `required_envvars+=()` is itself a match of the pattern
`required_envvars[^\)]*\)` (the text up to its final `)` has no `)`), that
match is mapped to the replacement itself, and a second application of
the rule changes nothing on any content. -/
theorem C9_first_rule_idempotent :
    (∀ t : List Char, match1 (repl1 ++ t) = some t) ∧
    sub1 repl1 = repl1 ∧
    ∀ s : List Char, sub1 (sub1 s) = sub1 s :=
  ⟨match1_repl1, by decide, sub1_idem⟩

/-- C10, counterexample: the middle clause of the claim is false as
stated.  On the content `required_envvars)required_envvars)` the text
after the first closing parenthesis — a second `required_envvars)`
declaration — is itself rewritten by the first rule: the result is
`required_envvars+=()required_envvars+=()` and the original text after
the first `)` does not survive. -/
theorem C10_counterexample :
    sub1 (requiredPat ++ ')' :: (requiredPat ++ [')'])) = repl1 ++ repl1 ∧
      (requiredPat ++ [')']).isSuffixOf
        (sub1 (requiredPat ++ ')' :: (requiredPat ++ [')']))) = false := by
  decide

/-- C10, amended: a match of the first rule's pattern never extends past
the first `)` after the token `required_envvars` (the remainder after the
match is exactly the text after that `)`); the text after that first `)`
is not consumed by the match — it is processed only by further
applications of the same rule, so it is unchanged whenever the pattern
does not match in it; and an occurrence of `required_envvars` with no
subsequent `)` in the file is not modified at all. -/
theorem C10_match_stops_at_first_close :
    ∀ mid b : List Char, noClose mid = true →
      match1 (requiredPat ++ (mid ++ ')' :: b)) = some b ∧
      sub1 (requiredPat ++ (mid ++ ')' :: b)) = repl1 ++ sub1 b ∧
      (hasMatch match1 b = false →
        sub1 (requiredPat ++ (mid ++ ')' :: b)) = repl1 ++ b) ∧
      ∀ a v : List Char, noClose v = true →
        ∃ a2, sub1 (a ++ (requiredPat ++ v)) = a2 ++ (requiredPat ++ v) := by
  intro mid b hmid
  refine ⟨match1_decl mid b hmid, sub1_of_match _ _ (match1_decl mid b hmid),
    ?_, ?_⟩
  · intro hb
    have hid : sub1 b = b := scan_id_of_no_match match1 repl1 match1_length b hb
    rw [sub1_of_match _ _ (match1_decl mid b hmid), hid]
  · intro a v hv
    exact sub1_frame a.length a (requiredPat ++ v) (Nat.le_refl _)
      (by rw [noClose_append, noClose_requiredPat, hv]; rfl)

/-- C10, witness: the amended theorem applied to the declaration
`required_envvars(x)tail` and, for the frame part, to the content
`A)required_envvars(no close`. -/
theorem C10_witness :
    noClose "(x".data = true ∧
      match1 (requiredPat ++ ("(x".data ++ ')' :: "tail".data)) =
        some "tail".data ∧
      ∃ a2, sub1 ("A)".data ++ (requiredPat ++ "(no close".data)) =
        a2 ++ (requiredPat ++ "(no close".data) :=
  ⟨by decide,
   (C10_match_stops_at_first_close "(x".data "tail".data (by decide)).1,
   (C10_match_stops_at_first_close "(x".data "tail".data (by decide)).2.2.2
     "A)".data "(no close".data (by decide)⟩
